import Mathlib

/-!
Shallow embedding of the `tonal` crate (src/lib.rs and src/synth.rs).

Modelling conventions:
* `f64` values are modelled as exact real numbers (`ℝ`).  Rounding of a
  float to an integer is modelled exactly where the source performs it:
  `f64::round` rounds half away from zero, the `as i16` / `as u32` casts
  truncate toward zero and saturate at the bounds of the target type.
* `i16` values are carried as `ℤ`; the release-mode wrapping addition used
  by `Iterator::sum::<i16>` is modelled by `i16add` (wrap modulo 2^16 into
  [-32768, 32767]).  `u32` values are carried as `ℕ` with the wrapping
  subtraction of `size_hint` modelled by `u32sub`.
* `std::time::Duration` is modelled as an exact nonnegative real number of
  seconds; `Duration::from_secs_f64` rejects (the source panics on)
  negative or non-finite input, and also finite input of at least 2^64
  seconds, which overflows the `u64` seconds field of `Duration`.
  Division of nonzero `f64` values by zero produces a non-finite value,
  modelled by `f64Div` returning `none`.
* Fallible paths (assertion failures and panics inside library calls) are
  modelled with `Except String`.
-/

/-- Model of `f64::round`: round to the nearest integer, halves away from
zero. -/
noncomputable def f64_round (x : ℝ) : ℤ :=
  if 0 ≤ x then ⌊x + 1 / 2⌋ else -⌊-x + 1 / 2⌋

/-- Truncation of a real toward zero, the integral part of a float-to-int
cast. -/
noncomputable def f64_trunc (x : ℝ) : ℤ :=
  if 0 ≤ x then ⌊x⌋ else ⌈x⌉

/-- Model of the Rust cast `as i16` from `f64`: truncate toward zero and
saturate at the `i16` bounds. -/
noncomputable def as_i16 (x : ℝ) : ℤ :=
  max (-32768) (min 32767 (f64_trunc x))

/-- Model of the Rust cast `as u32` from a (nonnegative-or-not) integral
`f64` value: saturate into [0, 2^32 - 1]. -/
def as_u32 (x : ℤ) : ℕ :=
  (max 0 (min x (2 ^ 32 - 1))).toNat

/-- Wrap an integer into the `i16` range [-32768, 32767] (two's complement,
modulo 2^16). -/
def wrap16 (x : ℤ) : ℤ :=
  (x + 32768) % 65536 - 32768

/-- Release-mode `i16` addition: wraps on overflow. -/
def i16add (a b : ℤ) : ℤ :=
  wrap16 (a + b)

/-- Release-mode `u32` subtraction: wraps modulo 2^32 on underflow. -/
def u32sub (a b : ℕ) : ℕ :=
  (((a : ℤ) - (b : ℤ)) % 2 ^ 32).toNat

/-- Model of `f64` division with a nonzero numerator: division by zero
yields a non-finite value, encoded as `none`. -/
noncomputable def f64Div (a b : ℝ) : Option ℝ :=
  if b = 0 then none else some (a / b)

namespace Duration

/-- Model of `std::time::Duration::from_secs_f64`: the source panics when
the seconds value is negative or non-finite, and also when it is finite
but at least 2^64 seconds, overflowing the `u64` seconds field of
`Duration`; nanosecond quantisation is abstracted to exact real
seconds. -/
noncomputable def from_secs_f64 : Option ℝ → Except String ℝ
  | none => .error "can not convert float seconds to Duration: value is either too big or NaN"
  | some x =>
    if x < 0 then .error "can not convert float seconds to Duration: value is negative"
    else if 2 ^ 64 ≤ x then
      .error "can not convert float seconds to Duration: value is either too big or NaN"
    else .ok x

/-- Model of `std::time::Duration::as_secs_f64` over the exact-seconds
model. -/
def as_secs_f64 (d : ℝ) : ℝ := d

end Duration

/-- `Pitch` from src/lib.rs: a tuple struct holding the number of half
steps away from A4 (an `i32`, modelled as `ℤ`). -/
structure Pitch where
  val : ℤ
deriving DecidableEq

/-- `Pitch::new_from_freq` from src/lib.rs: asserts `freq > 0.0`, then
returns `Pitch(round(12 * log2(freq / 440)))`.  The assertion failure is
modelled as an error; the final `as i32` cast is omitted because the
rounded value never reaches the `i32` bounds for any `f64`-representable
frequency. -/
noncomputable def Pitch.new_from_freq (freq : ℝ) : Except String Pitch :=
  if 0 < freq then .ok ⟨f64_round (12 * Real.logb 2 (freq / 440))⟩
  else .error "Frequency must be greater than 0"

/-- `Pitch::freq` from src/lib.rs: `440.0 * b.powi(self.0)` with
`b = 2f64.powf(12f64.recip())`. -/
noncomputable def Pitch.freq (p : Pitch) : ℝ :=
  440 * ((2 : ℝ) ^ ((12 : ℝ)⁻¹)) ^ p.val

/-- `Length` from src/lib.rs, with its `repr(i32)` discriminants exposed by
`Length.exp`. -/
inductive Length where
  | Sixteenth
  | Eigth
  | Quarter
  | Half
  | Whole
deriving DecidableEq

/-- The `repr(i32)` discriminant of each `Length` variant, used by
`Length::duration` as `self as i32`. -/
def Length.exp : Length → ℤ
  | .Sixteenth => 2
  | .Eigth => 1
  | .Quarter => 0
  | .Half => -1
  | .Whole => -2

/-- `Length::duration` from src/lib.rs:
`Duration::from_secs_f64(60.0 / (bpm * 2f64.powi(self as i32)))`. -/
noncomputable def Length.duration (l : Length) (bpm : ℝ) : Except String ℝ :=
  Duration.from_secs_f64 (f64Div 60 (bpm * 2 ^ l.exp))

/-- `Samples` from src/synth.rs.  `current` and `max` are `u32` (here `ℕ`
with the range invariant tracked by theorems), `pitches` is the borrowed
pitch slice, `rate` and `volume` are `f64`. -/
structure Samples where
  current : ℕ
  max : ℕ
  pitches : List Pitch
  rate : ℝ
  volume : ℝ

/-- `Samples::new` from src/synth.rs. -/
def Samples.new (current max : ℕ) (pitches : List Pitch) (rate volume : ℝ) :
    Samples :=
  ⟨current, max, pitches, rate, volume⟩

/-- `Chord` from src/lib.rs. -/
structure Chord where
  pitches : List Pitch
  length : Length
  volume : ℝ

/-- `Chord::new` from src/lib.rs. -/
def Chord.new (pitches : List Pitch) (length : Length) (volume : ℝ) : Chord :=
  ⟨pitches, length, volume⟩

/-- `Chord::samples` from src/lib.rs: converts `rate` to `f64`, computes
`max = (duration.as_secs_f64() * rate).round() as u32` and builds the
generator with effective volume `volume * 8192`.  A panic inside
`Length::duration` propagates. -/
noncomputable def Chord.samples (c : Chord) (bpm : ℝ) (rate : ℕ) :
    Except String Samples :=
  match c.length.duration bpm with
  | .error e => .error e
  | .ok d =>
    .ok (Samples.new 0 (as_u32 (f64_round (Duration.as_secs_f64 d * rate)))
      c.pitches rate (c.volume * 8192))

/-- The per-harmonic contribution inside `Samples::next` (src/synth.rs,
body of the inner `map` over `1..=4`): frequency `f * h`, amplitude
`volume / 2^(h-1)`, `(sin(time * 2 * PI * f) * v) as i16`. -/
noncomputable def harmonicContribution (time f volume : ℝ) (h : ℕ) : ℤ :=
  as_i16 (Real.sin (time * 2 * Real.pi * (f * h)) * (volume / 2 ^ (h - 1)))

/-- The per-pitch subtotal inside `Samples::next`: the four harmonic
contributions summed with `sum::<i16>` (left fold of wrapping `i16`
addition starting at 0). -/
noncomputable def pitchContribution (time volume : ℝ) (p : Pitch) : ℤ :=
  (([1, 2, 3, 4] : List ℕ).map (harmonicContribution time p.freq volume)).foldl
    i16add 0

/-- The sample value computed by `Samples::next` for the current index:
per-pitch subtotals summed with `sum::<i16>` across the pitch slice. -/
noncomputable def sampleValue (s : Samples) : ℤ :=
  (s.pitches.map (pitchContribution ((s.current : ℝ) / s.rate) s.volume)).foldl
    i16add 0

/-- `Samples::next` (an `&mut self` method): returns the yielded item
together with the updated iterator state.  When `current >= max` it
returns `None` and leaves the state untouched; otherwise it yields the
sample for the current index and increments `current`. -/
noncomputable def Samples.next (s : Samples) : Option ℤ × Samples :=
  if s.max ≤ s.current then (none, s)
  else (some (sampleValue s), { s with current := s.current + 1 })

/-- `Samples::size_hint` from src/synth.rs:
`let size = (self.max - self.current) as usize; (size, Some(size))` with
`u32` (release-mode wrapping) subtraction. -/
def Samples.size_hint (s : Samples) : ℕ × Option ℕ :=
  (u32sub s.max s.current, some (u32sub s.max s.current))

/-- The default `ExactSizeIterator::len` over `Samples`: the lower
`size_hint` bound (the source derives the instance with no override). -/
def Samples.len (s : Samples) : ℕ :=
  s.size_hint.1

/-- Pull `fuel` times on the iterator, collecting yielded samples until the
iterator signals exhaustion. -/
noncomputable def runSamples : ℕ → Samples → List ℤ
  | 0, _ => []
  | n + 1, s =>
    match s.next with
    | (none, _) => []
    | (some x, t) => x :: runSamples n t

/-- The full sample sequence of a generator: pulling `next` until `None`.
`max - current` pulls always suffice (shown by `runSamples_stable`). -/
noncomputable def samplesList (s : Samples) : List ℤ :=
  runSamples (s.max - s.current) s

/-! ### Helper lemmas -/

theorem floor_intCast_add_half (n : ℤ) : ⌊(n : ℝ) + 1 / 2⌋ = n := by
  rw [Int.floor_eq_iff]
  refine ⟨by linarith, ?_⟩
  have : ((n + 1 : ℤ) : ℝ) = (n : ℝ) + 1 := by push_cast; ring
  linarith [this]

theorem f64_round_intCast (n : ℤ) : f64_round (n : ℝ) = n := by
  unfold f64_round
  by_cases h : (0 : ℝ) ≤ (n : ℝ)
  · rw [if_pos h, floor_intCast_add_half]
  · rw [if_neg h]
    have : -(n : ℝ) = ((-n : ℤ) : ℝ) := by push_cast; ring
    rw [this, floor_intCast_add_half]
    ring

theorem f64_trunc_intCast (n : ℤ) : f64_trunc (n : ℝ) = n := by
  unfold f64_trunc
  by_cases h : (0 : ℝ) ≤ (n : ℝ)
  · rw [if_pos h, Int.floor_intCast]
  · rw [if_neg h, Int.ceil_intCast]

theorem as_u32_eq_min (x : ℤ) : as_u32 x = min x.toNat (2 ^ 32 - 1) := by
  simp only [as_u32]
  omega

theorem u32sub_exact (a b : ℕ) (h1 : b ≤ a) (h2 : a < 2 ^ 32) :
    u32sub a b = a - b := by
  simp only [u32sub]
  omega

theorem freq_A4 : Pitch.freq ⟨0⟩ = 440 := by
  simp [Pitch.freq]

theorem duration_of_pos (l : Length) (bpm : ℝ) (h : 0 < bpm)
    (hrange : 60 / (bpm * 2 ^ l.exp) < 2 ^ 64) :
    l.duration bpm = .ok (60 / (bpm * 2 ^ l.exp)) := by
  have h2 : (0 : ℝ) < 2 ^ l.exp := by positivity
  have hne : bpm * 2 ^ l.exp ≠ 0 := ne_of_gt (mul_pos h h2)
  have hnn : (0 : ℝ) ≤ 60 / (bpm * 2 ^ l.exp) := by positivity
  simp [Length.duration, f64Div, Duration.from_secs_f64, hne, not_lt.mpr hnn,
    not_le.mpr hrange]

theorem samples_of_duration (c : Chord) (bpm : ℝ) (rate : ℕ) (d : ℝ)
    (h : c.length.duration bpm = .ok d) :
    c.samples bpm rate =
      .ok (Samples.new 0 (as_u32 (f64_round (d * rate))) c.pitches rate
        (c.volume * 8192)) := by
  simp [Chord.samples, h, Duration.as_secs_f64]

theorem samples_ok_inv (c : Chord) (bpm : ℝ) (rate : ℕ) (s : Samples)
    (h : c.samples bpm rate = .ok s) :
    ∃ d, c.length.duration bpm = .ok d ∧
      s = Samples.new 0 (as_u32 (f64_round (d * rate))) c.pitches rate
        (c.volume * 8192) := by
  unfold Chord.samples at h
  cases hd : c.length.duration bpm with
  | error e => rw [hd] at h; simp at h
  | ok d =>
    rw [hd] at h
    simp only [Duration.as_secs_f64, Except.ok.injEq] at h
    exact ⟨d, rfl, h.symm⟩

theorem runSamples_length (n : ℕ) :
    ∀ s : Samples, s.max - s.current ≤ n →
      (runSamples n s).length = s.max - s.current := by
  induction n with
  | zero => intro s h; simp [runSamples]; omega
  | succ n ih =>
    intro s h
    by_cases hc : s.max ≤ s.current
    · simp [runSamples, Samples.next, hc]
    · have h' : ({ s with current := s.current + 1 } : Samples).max -
          ({ s with current := s.current + 1 } : Samples).current ≤ n := by
        simp
        omega
      simp only [runSamples, Samples.next, if_neg hc, List.length_cons, ih _ h']
      omega

theorem runSamples_exhausted (n : ℕ) (s : Samples) (h : s.max ≤ s.current) :
    runSamples n s = [] := by
  cases n with
  | zero => rfl
  | succ n => simp [runSamples, Samples.next, h]

theorem runSamples_stable (n : ℕ) :
    ∀ (m : ℕ) (s : Samples), s.max - s.current ≤ n → s.max - s.current ≤ m →
      runSamples n s = runSamples m s := by
  induction n with
  | zero =>
    intro m s h _
    rw [runSamples_exhausted 0 s (by omega), runSamples_exhausted m s (by omega)]
  | succ n ih =>
    intro m s h hm
    by_cases hc : s.max ≤ s.current
    · rw [runSamples_exhausted _ s hc, runSamples_exhausted m s hc]
    · obtain ⟨m', rfl⟩ : ∃ m', m = m' + 1 := ⟨m - 1, by omega⟩
      simp only [runSamples, Samples.next, if_neg hc]
      rw [ih m' { s with current := s.current + 1 } (by simp; omega) (by simp; omega)]

theorem samplesList_length (s : Samples) :
    (samplesList s).length = s.max - s.current :=
  runSamples_length _ s le_rfl

theorem runSamples_all_zero (n : ℕ) :
    ∀ s : Samples, s.pitches = [] → ∀ x ∈ runSamples n s, x = 0 := by
  induction n with
  | zero => intro s _ x hx; simp [runSamples] at hx
  | succ n ih =>
    intro s hp x hx
    by_cases hc : s.max ≤ s.current
    · rw [runSamples_exhausted _ s hc] at hx
      simp at hx
    · simp only [runSamples, Samples.next, if_neg hc, List.mem_cons] at hx
      rcases hx with hx | hx
      · rw [hx]
        simp [sampleValue, hp]
      · exact ih { s with current := s.current + 1 } (by simp [hp]) x hx

theorem f64_round_num (x : ℝ) (n : ℤ) (h : x = (n : ℝ)) : f64_round x = n :=
  h ▸ f64_round_intCast n

theorem f64_trunc_num (x : ℝ) (n : ℤ) (h : x = (n : ℝ)) : f64_trunc x = n :=
  h ▸ f64_trunc_intCast n

/-! ### Claim theorems -/

/-- C4 (counterexample): at `bpm = -60` the computed seconds value is
negative, so `Length::duration` does not return a nonsensical duration —
the conversion inside `Duration::from_secs_f64` raises an error (the
source panics). -/
theorem c4_counterexample :
    Length.Quarter.duration (-60) =
      Except.error "can not convert float seconds to Duration: value is negative" := by
  have h1 : Length.Quarter.duration (-60) =
      Duration.from_secs_f64 (f64Div 60 ((-60) * 2 ^ Length.Quarter.exp)) := rfl
  have h2 : ((-60 : ℝ)) * 2 ^ Length.Quarter.exp = -60 := by
    simp [Length.exp]
  rw [h1, h2]
  norm_num [f64Div, Duration.from_secs_f64]

/-- C4 (amended): for every length and every `bpm <= 0`, `Length::duration`
does not return a duration at all: the seconds value `60 / (bpm * 2^k)` is
negative (for `bpm < 0`) or infinite (for `bpm = 0`), and
`Duration::from_secs_f64` raises an error (the source panics) on such
values.  `Length::duration` itself performs no validation. -/
theorem c4_duration_errors_on_nonpos_bpm (l : Length) (bpm : ℝ) (h : bpm ≤ 0) :
    ∃ e, l.duration bpm = Except.error e := by
  rcases h.lt_or_eq with hneg | h0
  · have h2 : (0 : ℝ) < 2 ^ l.exp := by positivity
    have hmul : bpm * 2 ^ l.exp < 0 := mul_neg_of_neg_of_pos hneg h2
    have hne : bpm * 2 ^ l.exp ≠ 0 := ne_of_lt hmul
    have hlt : 60 / (bpm * 2 ^ l.exp) < 0 :=
      div_neg_of_pos_of_neg (by norm_num) hmul
    refine ⟨"can not convert float seconds to Duration: value is negative", ?_⟩
    simp [Length.duration, f64Div, Duration.from_secs_f64, hne, hlt]
  · refine ⟨"can not convert float seconds to Duration: value is either too big or NaN", ?_⟩
    simp [Length.duration, f64Div, Duration.from_secs_f64, h0]

/-- C4 (witness): concrete instance of the amended claim at
`Length::Half`, `bpm = -1`. -/
theorem c4_witness :
    ((-1 : ℝ) ≤ 0) ∧ ∃ e, Length.Half.duration (-1) = Except.error e :=
  ⟨by norm_num, c4_duration_errors_on_nonpos_bpm Length.Half (-1) (by norm_num)⟩

/-- C5: `Pitch::new_from_freq` fails (the assertion aborts the call before
the logarithm is evaluated) for every `freq <= 0`, and returns
`Pitch(round(12 * log2(freq / 440)))` for every `freq > 0`. -/
theorem c5_new_from_freq_spec (freq : ℝ) :
    (freq ≤ 0 →
      Pitch.new_from_freq freq = Except.error "Frequency must be greater than 0") ∧
    (0 < freq → Pitch.new_from_freq freq =
      Except.ok ⟨f64_round (12 * Real.logb 2 (freq / 440))⟩) := by
  constructor
  · intro h
    simp [Pitch.new_from_freq, not_lt.mpr h]
  · intro h
    simp [Pitch.new_from_freq, h]

/-- C5 (witness): the call errors at `freq = -2` and `freq = 0`, and at
`freq = 880` (one octave above the reference) it returns `Pitch(12)`. -/
theorem c5_witness :
    ((-2 : ℝ) ≤ 0 ∧
      Pitch.new_from_freq (-2) = Except.error "Frequency must be greater than 0") ∧
    ((0 : ℝ) ≤ 0 ∧
      Pitch.new_from_freq 0 = Except.error "Frequency must be greater than 0") ∧
    ((0 : ℝ) < 880 ∧ Pitch.new_from_freq 880 = Except.ok ⟨12⟩) := by
  refine ⟨⟨by norm_num, (c5_new_from_freq_spec (-2)).1 (by norm_num)⟩,
    ⟨le_refl 0, (c5_new_from_freq_spec 0).1 (le_refl 0)⟩,
    by norm_num, ?_⟩
  rw [(c5_new_from_freq_spec 880).2 (by norm_num)]
  have h2 : (880 : ℝ) / 440 = 2 := by norm_num
  rw [h2, Real.logb_self_eq_one (by norm_num)]
  have h3 : f64_round ((12 : ℝ) * 1) = 12 := f64_round_num _ 12 (by norm_num)
  rw [h3]

/-- C6 (counterexample): at `bpm = -120` the claim fails — `duration` does
not return the value `60 / (bpm * 2^k)` seconds (which would be negative);
it raises an error (the source panics). -/
theorem c6_counterexample :
    Length.Quarter.duration (-120) ≠
      Except.ok (60 / ((-120) * 2 ^ Length.Quarter.exp)) := by
  have h1 : Length.Quarter.duration (-120) =
      Duration.from_secs_f64 (f64Div 60 ((-120) * 2 ^ Length.Quarter.exp)) := rfl
  have h2 : ((-120 : ℝ)) * 2 ^ Length.Quarter.exp = -120 := by
    simp [Length.exp]
  rw [h1, h2]
  norm_num [f64Div, Duration.from_secs_f64]
  exact fun hcontra => Except.noConfusion hcontra

/-- C6 (amended): for every length and every `bpm > 0` for which the
computed seconds value `60 / (bpm * 2^k)` stays below the 2^64-second
range bound of `Duration`, `duration` returns `60 / (bpm * 2^k)` seconds
with `k` = whole: -2, half: -1, quarter: 0, eighth (source spelling
`Eigth`): +1, sixteenth: +2; in particular `Whole.duration(60) = 4`
seconds and `Quarter.duration(60) = 1` second, and a whole note lasts 4
times a quarter note at fixed positive bpm.  (For `bpm <= 0` the source
panics instead of returning a value; for positive bpm so small that the
seconds reach 2^64, `Duration` overflows and the source also panics —
the final conjunct.) -/
theorem c6_duration_formula (l : Length) (bpm : ℝ) (h : 0 < bpm)
    (hrange : 60 / (bpm * 2 ^ l.exp) < 2 ^ 64) :
    l.duration bpm = Except.ok (60 / (bpm * 2 ^ l.exp)) ∧
    (Length.Whole.exp = -2 ∧ Length.Half.exp = -1 ∧ Length.Quarter.exp = 0 ∧
      Length.Eigth.exp = 1 ∧ Length.Sixteenth.exp = 2) ∧
    Length.Whole.duration 60 = Except.ok 4 ∧
    Length.Quarter.duration 60 = Except.ok 1 ∧
    60 / (bpm * 2 ^ Length.Whole.exp) = 4 * (60 / (bpm * 2 ^ Length.Quarter.exp)) ∧
    (∀ b : ℝ, 0 < b → 2 ^ 64 ≤ 60 / (b * 2 ^ l.exp) →
      ∃ e, l.duration b = Except.error e) := by
  refine ⟨duration_of_pos l bpm h hrange, by simp [Length.exp], ?_, ?_, ?_, ?_⟩
  · have hval : (60 : ℝ) / (60 * 2 ^ Length.Whole.exp) = 4 := by
      simp [Length.exp]
      norm_num [zpow_neg]
    rw [duration_of_pos _ _ (by norm_num) (by rw [hval]; norm_num), hval]
  · have hval : (60 : ℝ) / (60 * 2 ^ Length.Quarter.exp) = 1 := by
      simp [Length.exp]
    rw [duration_of_pos _ _ (by norm_num) (by rw [hval]; norm_num), hval]
  · have hne : bpm ≠ 0 := ne_of_gt h
    simp [Length.exp]
    field_simp
    ring
  · intro b hb hbig
    have h2 : (0 : ℝ) < 2 ^ l.exp := by positivity
    have hne : b * 2 ^ l.exp ≠ 0 := ne_of_gt (mul_pos hb h2)
    have hnn : (0 : ℝ) ≤ 60 / (b * 2 ^ l.exp) := by positivity
    refine ⟨"can not convert float seconds to Duration: value is either too big or NaN", ?_⟩
    simp [Length.duration, f64Div, Duration.from_secs_f64, hne, not_lt.mpr hnn, hbig]

/-- C6 (witness): concrete instance of the amended claim at
`Length::Eigth`, `bpm = 120` (where the seconds value 1/4 is far below
the `Duration` range bound). -/
theorem c6_witness :
    ((0 : ℝ) < 120 ∧ 60 / ((120 : ℝ) * 2 ^ Length.Eigth.exp) < 2 ^ 64) ∧
    (Length.Eigth.duration 120 = Except.ok (60 / (120 * 2 ^ Length.Eigth.exp)) ∧
    (Length.Whole.exp = -2 ∧ Length.Half.exp = -1 ∧ Length.Quarter.exp = 0 ∧
      Length.Eigth.exp = 1 ∧ Length.Sixteenth.exp = 2) ∧
    Length.Whole.duration 60 = Except.ok 4 ∧
    Length.Quarter.duration 60 = Except.ok 1 ∧
    60 / ((120 : ℝ) * 2 ^ Length.Whole.exp) = 4 * (60 / (120 * 2 ^ Length.Quarter.exp)) ∧
    (∀ b : ℝ, 0 < b → 2 ^ 64 ≤ 60 / (b * 2 ^ Length.Eigth.exp) →
      ∃ e, Length.Eigth.duration b = Except.error e)) :=
  ⟨⟨by norm_num, by simp [Length.exp]; norm_num⟩,
    c6_duration_formula Length.Eigth 120 (by norm_num) (by simp [Length.exp]; norm_num)⟩

/-- C1 (amended): for every chord, bpm and rate, when `Chord::samples`
returns a generator, exhausting it and counting yields exactly
`min(round(duration_seconds * rate), 2^32 - 1)` samples — the `as u32`
cast of the rounded value saturates at `u32::MAX` — and pulling `next` any
number of further times yields no further elements. -/
theorem c1_stream_length_clamped (c : Chord) (bpm : ℝ) (rate : ℕ)
    (s : Samples) (h : c.samples bpm rate = Except.ok s) :
    ∃ d, c.length.duration bpm = Except.ok d ∧
      (samplesList s).length =
        min (f64_round (Duration.as_secs_f64 d * rate)).toNat (2 ^ 32 - 1) ∧
      ∀ n, s.max - s.current ≤ n → runSamples n s = samplesList s := by
  obtain ⟨d, hd, rfl⟩ := samples_ok_inv c bpm rate s h
  refine ⟨d, hd, ?_, ?_⟩
  · rw [samplesList_length]
    simp [Samples.new, Duration.as_secs_f64, as_u32_eq_min]
  · intro n hn
    exact runSamples_stable n _ _ hn le_rfl

/-- C1 (witness): a whole note at 60 bpm sampled at 8000 Hz yields exactly
32000 samples. -/
theorem c1_witness :
    (Chord.new [] Length.Whole 1).samples 60 8000 =
      Except.ok (Samples.new 0 32000 [] 8000 8192) ∧
    ∃ d, (Chord.new [] Length.Whole 1).length.duration 60 = Except.ok d ∧
      (samplesList (Samples.new 0 32000 [] 8000 8192)).length =
        min (f64_round (Duration.as_secs_f64 d * ((8000 : ℕ) : ℝ))).toNat (2 ^ 32 - 1) ∧
      ∀ n, (Samples.new 0 32000 [] 8000 8192).max -
          (Samples.new 0 32000 [] 8000 8192).current ≤ n →
        runSamples n (Samples.new 0 32000 [] 8000 8192) =
          samplesList (Samples.new 0 32000 [] 8000 8192) := by
  have hd : Length.Whole.duration 60 = Except.ok 4 := by
    have hval : (60 : ℝ) / (60 * 2 ^ Length.Whole.exp) = 4 := by
      simp [Length.exp]
      norm_num [zpow_neg]
    rw [duration_of_pos _ _ (by norm_num) (by rw [hval]; norm_num), hval]
  have h : (Chord.new [] Length.Whole 1).samples 60 8000 =
      Except.ok (Samples.new 0 32000 [] 8000 8192) := by
    rw [samples_of_duration (Chord.new [] Length.Whole 1) 60 8000 4 hd]
    have hr : f64_round ((4 : ℝ) * ((8000 : ℕ) : ℝ)) = 32000 :=
      f64_round_num _ 32000 (by push_cast; norm_num)
    rw [hr]
    simp [Chord.new, Samples.new, as_u32_eq_min]
  exact ⟨h, c1_stream_length_clamped _ _ _ _ h⟩

/-- C1 (counterexample): a whole note at 60 bpm sampled at rate 4000000000
has `round(duration_seconds * rate) = 16000000000`, but the stream yields
only `u32::MAX = 4294967295` samples: the claim that the stream always
yields `round(duration_seconds * rate)` samples is false. -/
theorem c1_counterexample :
    (Chord.new [] Length.Whole 1).samples 60 4000000000 =
      Except.ok (Samples.new 0 4294967295 [] 4000000000 8192) ∧
    (samplesList (Samples.new 0 4294967295 [] 4000000000 8192)).length = 4294967295 ∧
    Length.Whole.duration 60 = Except.ok 4 ∧
    f64_round (Duration.as_secs_f64 4 * ((4000000000 : ℕ) : ℝ)) = 16000000000 ∧
    (4294967295 : ℕ) ≠ 16000000000 := by
  have hd : Length.Whole.duration 60 = Except.ok 4 := by
    have hval : (60 : ℝ) / (60 * 2 ^ Length.Whole.exp) = 4 := by
      simp [Length.exp]
      norm_num [zpow_neg]
    rw [duration_of_pos _ _ (by norm_num) (by rw [hval]; norm_num), hval]
  have hr : f64_round ((4 : ℝ) * ((4000000000 : ℕ) : ℝ)) = 16000000000 :=
    f64_round_num _ 16000000000 (by push_cast; norm_num)
  refine ⟨?_, ?_, hd, hr, by norm_num⟩
  · rw [samples_of_duration (Chord.new [] Length.Whole 1) 60 4000000000 4 hd, hr]
    simp [Chord.new, Samples.new, as_u32_eq_min]
  · rw [samplesList_length]
    simp [Samples.new]

/-- C9 (amended): for every bpm and rate, a chord with an empty pitch
sequence yields a stream whose samples are all 0, of length
`min(round(duration_seconds * rate), 2^32 - 1)` (the length saturates at
`u32::MAX`, like every stream). -/
theorem c9_empty_chord_all_zero (l : Length) (v bpm : ℝ) (rate : ℕ)
    (s : Samples) (h : (Chord.new [] l v).samples bpm rate = Except.ok s) :
    (∀ x ∈ samplesList s, x = 0) ∧
    ∃ d, l.duration bpm = Except.ok d ∧
      (samplesList s).length =
        min (f64_round (Duration.as_secs_f64 d * rate)).toNat (2 ^ 32 - 1) := by
  obtain ⟨d, hd, rfl⟩ := samples_ok_inv _ bpm rate s h
  refine ⟨runSamples_all_zero _ _ rfl, d, hd, ?_⟩
  rw [samplesList_length]
  simp [Samples.new, Duration.as_secs_f64, as_u32_eq_min]

/-- C9 (witness): the empty quarter-note chord at 120 bpm, 44100 Hz yields
22050 samples, all zero. -/
theorem c9_witness :
    (Chord.new [] Length.Quarter (1 / 4)).samples 120 44100 =
      Except.ok (Samples.new 0 22050 [] 44100 2048) ∧
    ((∀ x ∈ samplesList (Samples.new 0 22050 [] 44100 2048), x = 0) ∧
      ∃ d, Length.Quarter.duration 120 = Except.ok d ∧
        (samplesList (Samples.new 0 22050 [] 44100 2048)).length =
          min (f64_round (Duration.as_secs_f64 d * ((44100 : ℕ) : ℝ))).toNat (2 ^ 32 - 1)) := by
  have hd : Length.Quarter.duration 120 = Except.ok (1 / 2) := by
    have hval : (60 : ℝ) / (120 * 2 ^ Length.Quarter.exp) = 1 / 2 := by
      simp [Length.exp]
      norm_num
    rw [duration_of_pos _ _ (by norm_num) (by rw [hval]; norm_num), hval]
  have h : (Chord.new [] Length.Quarter (1 / 4)).samples 120 44100 =
      Except.ok (Samples.new 0 22050 [] 44100 2048) := by
    rw [samples_of_duration (Chord.new [] Length.Quarter (1 / 4)) 120 44100 (1 / 2) hd]
    have hr : f64_round ((1 / 2 : ℝ) * ((44100 : ℕ) : ℝ)) = 22050 :=
      f64_round_num _ 22050 (by push_cast; norm_num)
    rw [hr]
    simp [Chord.new, Samples.new, as_u32_eq_min]
    norm_num
  exact ⟨h, c9_empty_chord_all_zero _ _ _ _ _ h⟩

/-- C9 (counterexample): the empty whole-note chord at 120 bpm and rate
4000000000 yields all-zero samples, but only `u32::MAX = 4294967295` of
them, not `round(duration_seconds * rate) = 8000000000`: the length clause
of the claim is false as stated. -/
theorem c9_counterexample :
    (Chord.new [] Length.Whole 0).samples 120 4000000000 =
      Except.ok (Samples.new 0 4294967295 [] 4000000000 0) ∧
    (∀ x ∈ samplesList (Samples.new 0 4294967295 [] 4000000000 0), x = 0) ∧
    (samplesList (Samples.new 0 4294967295 [] 4000000000 0)).length = 4294967295 ∧
    Length.Whole.duration 120 = Except.ok 2 ∧
    f64_round (Duration.as_secs_f64 2 * ((4000000000 : ℕ) : ℝ)) = 8000000000 ∧
    (4294967295 : ℕ) ≠ 8000000000 := by
  have hd : Length.Whole.duration 120 = Except.ok 2 := by
    have hval : (60 : ℝ) / (120 * 2 ^ Length.Whole.exp) = 2 := by
      simp [Length.exp]
      norm_num [zpow_neg]
    rw [duration_of_pos _ _ (by norm_num) (by rw [hval]; norm_num), hval]
  have hr : f64_round ((2 : ℝ) * ((4000000000 : ℕ) : ℝ)) = 8000000000 :=
    f64_round_num _ 8000000000 (by push_cast; norm_num)
  refine ⟨?_, ?_, ?_, hd, hr, by norm_num⟩
  · rw [samples_of_duration (Chord.new [] Length.Whole 0) 120 4000000000 2 hd, hr]
    simp [Chord.new, Samples.new, as_u32_eq_min]
  · exact runSamples_all_zero _ _ rfl
  · rw [samplesList_length]
    simp [Samples.new]

theorem arg_pi_div_six : (1 / 5280 : ℝ) * 2 * Real.pi * (Pitch.freq ⟨0⟩ * ((1 : ℕ) : ℝ)) =
    Real.pi / 6 := by
  rw [freq_A4]
  push_cast
  ring

/-- C2 (counterexample): take sample index 1 at rate 5280 (time 1/5280),
the pitch `Pitch(0)` (frequency 440), harmonic 1 and effective volume 1.
The floating-point product is `sin(pi/6) * 1 = 1/2`; the generator
produces `(1/2) as i16 = 0` (truncation toward zero), while the claimed
rounding to the nearest integer gives 1. -/
theorem c2_counterexample :
    harmonicContribution (1 / 5280) (Pitch.freq ⟨0⟩) 1 1 = 0 ∧
    f64_round (Real.sin (1 / 5280 * 2 * Real.pi * (Pitch.freq ⟨0⟩ * ((1 : ℕ) : ℝ))) *
      (1 / 2 ^ ((1 : ℕ) - 1))) = 1 := by
  have harg := arg_pi_div_six
  constructor
  · unfold harmonicContribution
    rw [harg, Real.sin_pi_div_six]
    have h1 : (1 / 2 : ℝ) * (1 / 2 ^ (1 - 1)) = 1 / 2 := by norm_num
    rw [h1]
    unfold as_i16 f64_trunc
    rw [if_pos (by norm_num : (0 : ℝ) ≤ 1 / 2)]
    have h2 : ⌊(1 / 2 : ℝ)⌋ = 0 := by
      rw [Int.floor_eq_zero_iff]
      constructor <;> norm_num
    rw [h2]
    norm_num
  · rw [harg, Real.sin_pi_div_six]
    have h1 : (1 / 2 : ℝ) * (1 / 2 ^ ((1 : ℕ) - 1)) = 1 / 2 := by norm_num
    rw [h1]
    unfold f64_round
    rw [if_pos (by norm_num : (0 : ℝ) ≤ 1 / 2)]
    rw [show (1 / 2 + 1 / 2 : ℝ) = 1 by norm_num, Int.floor_one]

/-- C2 (amended): the per-harmonic integer contribution equals the
floating-point product `sin(time * 2 * pi * (f * h)) * (volume / 2^(h-1))`
converted by truncation toward zero and saturated at the i16 bounds
(the semantics of the Rust `as i16` cast), not by rounding to the nearest
integer.  In-range values take their floor (nonnegative case) or ceiling
(negative case); out-of-range values clamp to 32767 / -32768; the result
always lies in the i16 range. -/
theorem c2_harmonic_truncates (time f volume : ℝ) (h : ℕ) :
    harmonicContribution time f volume h =
      max (-32768) (min 32767 (f64_trunc
        (Real.sin (time * 2 * Real.pi * (f * h)) * (volume / 2 ^ (h - 1))))) ∧
    (∀ x : ℝ, 0 ≤ x → x ≤ 32767 → as_i16 x = ⌊x⌋) ∧
    (∀ x : ℝ, -32768 ≤ x → x < 0 → as_i16 x = ⌈x⌉) ∧
    -32768 ≤ harmonicContribution time f volume h ∧
    harmonicContribution time f volume h ≤ 32767 := by
  refine ⟨rfl, ?_, ?_, ?_, ?_⟩
  · intro x hx0 hx
    have h1 : (0 : ℤ) ≤ ⌊x⌋ := Int.floor_nonneg.mpr hx0
    have h2 : ⌊x⌋ ≤ 32767 := by
      have h3 := Int.floor_le_floor (α := ℝ) hx
      rw [show ((32767 : ℝ)) = ((32767 : ℤ) : ℝ) by norm_num, Int.floor_intCast] at h3
      exact h3
    simp only [as_i16, f64_trunc, if_pos hx0]
    omega
  · intro x hx0 hx
    have h1 : ⌈x⌉ ≤ 0 := Int.ceil_le.mpr (by exact_mod_cast le_of_lt hx)
    have h2 : (-32768 : ℤ) ≤ ⌈x⌉ := by
      have h3 := Int.ceil_le_ceil (α := ℝ) hx0
      rw [show ((-32768 : ℝ)) = ((-32768 : ℤ) : ℝ) by norm_num, Int.ceil_intCast] at h3
      exact h3
    simp only [as_i16, f64_trunc, if_neg (not_le.mpr hx)]
    omega
  · simp only [harmonicContribution, as_i16]
    omega
  · simp only [harmonicContribution, as_i16]
    omega

/-- C2 (witness): concrete instances of the in-range cases of the amended
claim: `as i16` takes 3/2 to 1 (its floor) and -3/2 to -1 (its ceiling). -/
theorem c2_witness :
    ((0 : ℝ) ≤ 3 / 2 ∧ (3 / 2 : ℝ) ≤ 32767 ∧ as_i16 (3 / 2) = ⌊(3 / 2 : ℝ)⌋) ∧
    ((-32768 : ℝ) ≤ -3 / 2 ∧ (-3 / 2 : ℝ) < 0 ∧ as_i16 (-3 / 2) = ⌈(-3 / 2 : ℝ)⌉) :=
  ⟨⟨by norm_num, by norm_num,
    (c2_harmonic_truncates 0 440 8192 1).2.1 (3 / 2) (by norm_num) (by norm_num)⟩,
   ⟨by norm_num, by norm_num,
    (c2_harmonic_truncates 0 440 8192 1).2.2.1 (-3 / 2) (by norm_num) (by norm_num)⟩⟩

/-- C3 (counterexample): same inputs as the C2 counterexample but with
effective volume 81920: the product is `sin(pi/6) * 81920 = 40960`, which
is outside the i16 range.  The generator produces 32767 (saturation at the
i16 upper bound), not the wrapped value `40960 - 65536 = -24576` that the
claimed modulo-2^16 behaviour would give. -/
theorem c3_counterexample :
    harmonicContribution (1 / 5280) (Pitch.freq ⟨0⟩) 81920 1 = 32767 ∧
    wrap16 (f64_trunc
      (Real.sin (1 / 5280 * 2 * Real.pi * (Pitch.freq ⟨0⟩ * ((1 : ℕ) : ℝ))) *
        (81920 / 2 ^ ((1 : ℕ) - 1)))) = -24576 ∧
    (32767 : ℤ) ≠ -24576 := by
  have harg := arg_pi_div_six
  have hprod : Real.sin (1 / 5280 * 2 * Real.pi * (Pitch.freq ⟨0⟩ * ((1 : ℕ) : ℝ))) *
      ((81920 : ℝ) / 2 ^ ((1 : ℕ) - 1)) = ((40960 : ℤ) : ℝ) := by
    rw [harg, Real.sin_pi_div_six]
    norm_num
  refine ⟨?_, ?_, by norm_num⟩
  · unfold harmonicContribution
    rw [hprod]
    unfold as_i16
    rw [f64_trunc_intCast]
    norm_num
  · rw [hprod, f64_trunc_intCast]
    simp only [wrap16]
    omega

/-- C3 (amended): when the floating-point product lies outside the signed
16-bit range, the per-harmonic conversion to 16 bits saturates at the i16
bounds (32767 / -32768, the Rust `as i16` cast) rather than wrapping;
the subsequent 16-bit summation steps across harmonics and across pitches
do wrap modulo 2^16 (release-mode overflow semantics): each sum step is
`((a + b + 32768) mod 65536) - 32768`, the identity on in-range sums and a
65536-shift on overflowing ones. -/
theorem c3_saturate_and_wrap :
    (∀ x : ℝ, 32767 < x → as_i16 x = 32767) ∧
    (∀ x : ℝ, x < -32768 → as_i16 x = -32768) ∧
    (∀ a b : ℤ, i16add a b = (a + b + 32768) % 65536 - 32768) ∧
    (∀ a b : ℤ, -32768 ≤ a + b → a + b ≤ 32767 → i16add a b = a + b) ∧
    (∀ a b : ℤ, 32767 < a + b → a + b ≤ 98303 → i16add a b = a + b - 65536) ∧
    (∀ (time volume : ℝ) (p : Pitch), pitchContribution time volume p =
      i16add (i16add (i16add (i16add 0 (harmonicContribution time p.freq volume 1))
        (harmonicContribution time p.freq volume 2))
        (harmonicContribution time p.freq volume 3))
        (harmonicContribution time p.freq volume 4)) ∧
    (∀ s : Samples, sampleValue s =
      (s.pitches.map (pitchContribution ((s.current : ℝ) / s.rate) s.volume)).foldl
        i16add 0) := by
  refine ⟨?_, ?_, fun a b => rfl, ?_, ?_, fun time volume p => rfl, fun s => rfl⟩
  · intro x hx
    have h0 : (0 : ℝ) ≤ x := le_trans (by norm_num) (le_of_lt hx)
    have h1 : (32767 : ℤ) ≤ ⌊x⌋ := by
      rw [Int.le_floor]
      exact_mod_cast le_of_lt hx
    simp only [as_i16, f64_trunc, if_pos h0]
    omega
  · intro x hx
    have h0 : ¬(0 : ℝ) ≤ x := not_le.mpr (lt_trans hx (by norm_num))
    have h1 : ⌈x⌉ ≤ -32768 := by
      rw [Int.ceil_le]
      exact_mod_cast le_of_lt hx
    simp only [as_i16, f64_trunc, if_neg h0]
    omega
  · intro a b h1 h2
    simp only [i16add, wrap16]
    omega
  · intro a b h1 h2
    simp only [i16add, wrap16]
    omega

/-- C3 (witness): the cast saturates at both bounds on concrete
out-of-range values, and a concrete overflowing 16-bit sum wraps. -/
theorem c3_witness :
    ((32767 : ℝ) < 40000 ∧ as_i16 40000 = 32767) ∧
    ((-40000 : ℝ) < -32768 ∧ as_i16 (-40000) = -32768) ∧
    ((32767 : ℤ) < 30000 + 30000 ∧ (30000 : ℤ) + 30000 ≤ 98303 ∧
      i16add 30000 30000 = 30000 + 30000 - 65536) :=
  ⟨⟨by norm_num, c3_saturate_and_wrap.1 40000 (by norm_num)⟩,
   ⟨by norm_num, c3_saturate_and_wrap.2.1 (-40000) (by norm_num)⟩,
   ⟨by norm_num, by norm_num,
    c3_saturate_and_wrap.2.2.2.2.1 30000 30000 (by norm_num) (by norm_num)⟩⟩

/-- C7: two calls to `Chord::samples` with the same chord, bpm and rate
produce identical generators, each starting at index 0, hence identical
sample sequences element-for-element; and iterating a generator (`next`)
never changes the chord-derived data it reads (pitches, max, rate,
volume) — only the index advances, so sampling never mutates the chord. -/
theorem c7_samples_restartable :
    (∀ (c : Chord) (bpm : ℝ) (rate : ℕ) (s₁ s₂ : Samples),
      c.samples bpm rate = Except.ok s₁ → c.samples bpm rate = Except.ok s₂ →
      s₁ = s₂ ∧ s₁.current = 0 ∧ s₁.pitches = c.pitches ∧
        samplesList s₁ = samplesList s₂) ∧
    (∀ s : Samples, (s.next).2.pitches = s.pitches ∧ (s.next).2.max = s.max ∧
      (s.next).2.rate = s.rate ∧ (s.next).2.volume = s.volume) := by
  constructor
  · intro c bpm rate s₁ s₂ h1 h2
    rw [h1] at h2
    have hs : s₁ = s₂ := Except.ok.inj h2
    obtain ⟨d, hd, rfl⟩ := samples_ok_inv c bpm rate s₁ h1
    exact ⟨hs, rfl, rfl, by rw [hs]⟩
  · intro s
    unfold Samples.next
    by_cases hc : s.max ≤ s.current <;> simp [hc]

/-- C7 (witness): concrete restartability instance — both calls on the
empty quarter-note chord return the same generator at index 0. -/
theorem c7_witness :
    (Chord.new [] Length.Quarter 1).samples 60 8000 =
      Except.ok (Samples.new 0 8000 [] 8000 8192) ∧
    (Samples.new 0 8000 [] 8000 8192 = Samples.new 0 8000 [] 8000 8192 ∧
      (Samples.new 0 8000 [] 8000 8192).current = 0 ∧
      (Samples.new 0 8000 [] 8000 8192).pitches = (Chord.new [] Length.Quarter 1).pitches ∧
      samplesList (Samples.new 0 8000 [] 8000 8192) =
        samplesList (Samples.new 0 8000 [] 8000 8192)) := by
  have hd : Length.Quarter.duration 60 = Except.ok 1 := by
    have hval : (60 : ℝ) / (60 * 2 ^ Length.Quarter.exp) = 1 := by
      simp [Length.exp]
    rw [duration_of_pos _ _ (by norm_num) (by rw [hval]; norm_num), hval]
  have h : (Chord.new [] Length.Quarter 1).samples 60 8000 =
      Except.ok (Samples.new 0 8000 [] 8000 8192) := by
    rw [samples_of_duration (Chord.new [] Length.Quarter 1) 60 8000 1 hd]
    have hr : f64_round ((1 : ℝ) * ((8000 : ℕ) : ℝ)) = 8000 :=
      f64_round_num _ 8000 (by push_cast; norm_num)
    rw [hr]
    simp [Chord.new, Samples.new, as_u32_eq_min]
  exact ⟨h, c7_samples_restartable.1 _ _ _ _ _ h h⟩

/-- C8: at any point during iteration (that is, in any state satisfying
the iterator invariant `current <= max < 2^32`), `size_hint` reports
exactly `max - current` as both bounds, the derived exact-size `len`
equals it, and this is precisely the number of samples the stream will
still produce before exhaustion. -/
theorem c8_size_hint_exact (s : Samples) (h1 : s.current ≤ s.max)
    (h2 : s.max < 2 ^ 32) :
    s.size_hint = ((samplesList s).length, some (samplesList s).length) ∧
    s.len = (samplesList s).length ∧
    (samplesList s).length = s.max - s.current := by
  have hu : u32sub s.max s.current = s.max - s.current := u32sub_exact _ _ h1 h2
  rw [samplesList_length]
  exact ⟨by simp [Samples.size_hint, hu], by simp [Samples.len, Samples.size_hint, hu], rfl⟩

/-- C8 (witness): a generator at index 2 of 5 reports 3 remaining samples. -/
theorem c8_witness :
    (Samples.new 2 5 [] 44100 0).current ≤ (Samples.new 2 5 [] 44100 0).max ∧
    (Samples.new 2 5 [] 44100 0).max < 2 ^ 32 ∧
    ((Samples.new 2 5 [] 44100 0).size_hint =
        ((samplesList (Samples.new 2 5 [] 44100 0)).length,
          some (samplesList (Samples.new 2 5 [] 44100 0)).length) ∧
      (Samples.new 2 5 [] 44100 0).len =
        (samplesList (Samples.new 2 5 [] 44100 0)).length ∧
      (samplesList (Samples.new 2 5 [] 44100 0)).length =
        (Samples.new 2 5 [] 44100 0).max - (Samples.new 2 5 [] 44100 0).current) :=
  ⟨by norm_num [Samples.new], by norm_num [Samples.new],
    c8_size_hint_exact (Samples.new 2 5 [] 44100 0) (by norm_num [Samples.new])
      (by norm_num [Samples.new])⟩

/-- C10: every generator built by `Chord::samples` starts with
`current = 0 <= max < 2^32`; `next` yields an element exactly when
`current < max` and then increments only `current`, preserving the
invariant; under the invariant the `u32` subtraction `max - current` in
`size_hint` cannot underflow (the wrapping subtraction agrees with the
exact one); and once `current = max` every further `next` returns `None`
and leaves the state unchanged. -/
theorem c10_iterator_invariant :
    (∀ (c : Chord) (bpm : ℝ) (rate : ℕ) (s : Samples),
      c.samples bpm rate = Except.ok s →
      s.current = 0 ∧ s.current ≤ s.max ∧ s.max < 2 ^ 32) ∧
    (∀ (s t : Samples) (x : ℤ), s.next = (some x, t) →
      s.current < s.max ∧ t.current = s.current + 1 ∧ t.max = s.max ∧
        t.current ≤ t.max) ∧
    (∀ s : Samples, s.current ≤ s.max → s.max < 2 ^ 32 →
      u32sub s.max s.current = s.max - s.current) ∧
    (∀ s : Samples, s.max ≤ s.current → s.next = (none, s)) := by
  refine ⟨?_, ?_, fun s h1 h2 => u32sub_exact _ _ h1 h2, ?_⟩
  · intro c bpm rate s h
    obtain ⟨d, hd, rfl⟩ := samples_ok_inv c bpm rate s h
    refine ⟨rfl, Nat.zero_le _, ?_⟩
    show as_u32 _ < 2 ^ 32
    rw [as_u32_eq_min]
    omega
  · intro s t x h
    unfold Samples.next at h
    by_cases hc : s.max ≤ s.current
    · rw [if_pos hc] at h
      simp at h
    · rw [if_neg hc] at h
      rw [Prod.mk.injEq] at h
      obtain ⟨-, ht⟩ := h
      subst ht
      refine ⟨by omega, rfl, rfl, by simp; omega⟩
  · intro s h
    unfold Samples.next
    rw [if_pos h]

/-- C10 (witness): a concrete generator from `Chord::samples` satisfies
the initial invariant, and a concrete exhausted generator keeps returning
`None` without changing state. -/
theorem c10_witness :
    (Chord.new [] Length.Quarter 0).samples 60 100 =
      Except.ok (Samples.new 0 100 [] 100 0) ∧
    ((Samples.new 0 100 [] 100 0).current = 0 ∧
      (Samples.new 0 100 [] 100 0).current ≤ (Samples.new 0 100 [] 100 0).max ∧
      (Samples.new 0 100 [] 100 0).max < 2 ^ 32) ∧
    (Samples.new 5 5 [] 100 0).max ≤ (Samples.new 5 5 [] 100 0).current ∧
    (Samples.new 5 5 [] 100 0).next = (none, Samples.new 5 5 [] 100 0) := by
  have hd : Length.Quarter.duration 60 = Except.ok 1 := by
    have hval : (60 : ℝ) / (60 * 2 ^ Length.Quarter.exp) = 1 := by
      simp [Length.exp]
    rw [duration_of_pos _ _ (by norm_num) (by rw [hval]; norm_num), hval]
  have h : (Chord.new [] Length.Quarter 0).samples 60 100 =
      Except.ok (Samples.new 0 100 [] 100 0) := by
    rw [samples_of_duration (Chord.new [] Length.Quarter 0) 60 100 1 hd]
    have hr : f64_round ((1 : ℝ) * ((100 : ℕ) : ℝ)) = 100 :=
      f64_round_num _ 100 (by push_cast; norm_num)
    rw [hr]
    simp [Chord.new, Samples.new, as_u32_eq_min]
  exact ⟨h, c10_iterator_invariant.1 _ _ _ _ h,
    by norm_num [Samples.new],
    c10_iterator_invariant.2.2.2 (Samples.new 5 5 [] 100 0) (by norm_num [Samples.new])⟩
